import Mathlib

/-!
Verification of the tranco-rs client library (src/lib.rs): a shallow
embedding of its data model, CSV line parsing, URL construction and the
hand-written serde deserializers, with theorems settling the spec claims.

Machine integers are modelled as `Nat` with explicit range conditions
(`< 2^32` / `< 2^64`) and explicit truncation (`% 2^32`) where the source
casts. Fallible operations return `Except`.
-/

namespace Tranco

/-! ## Errors of `Client::download_list` (enum `DownloadListError`)

`Request` and `ReadLine` wrap transport / IO failures that are outside the
embedding; they carry their message. `InvalidRank` wraps a
`std::num::ParseIntError`, modelled here by the offending token. -/

inductive DownloadListError where
  | Request (msg : String)
  | ReadLine (msg : String)
  | MissingRank
  | InvalidRank (tok : String)
  | MissingDomain
deriving DecidableEq

/-- One decoded line of a downloaded list (struct `RankedDomain`);
`rank` is a `u64` in the source. -/
structure RankedDomain where
  rank : Nat
  domain : String
deriving DecidableEq

/-! ## Rust string primitives used by `download_list` -/

/-- Model of Rust `str::split(",")` on the character list of the line:
substrings between commas, empties preserved; never returns `[]`
(a string with no separator yields one token). -/
def splitCore : List Char → List Char → List String
  | [], acc => [String.mk acc.reverse]
  | c :: cs, acc =>
    if c = ',' then String.mk acc.reverse :: splitCore cs [] else splitCore cs (c :: acc)

/-- `line.split(",")` as used at src/lib.rs:108. -/
def commaSplit (line : String) : List String := splitCore line.data []

/-- Model of the sign handling of Rust `str::parse` for unsigned integers:
a single leading `+` is permitted and skipped. -/
def stripPlus : List Char → List Char
  | [] => []
  | c :: rest => if c = '+' then rest else c :: rest

/-- Decimal value of a digit run, left to right; `none` on the first
non-digit character (Rust `ParseIntError` of kind `InvalidDigit`). -/
def digitsVal : List Char → Nat → Option Nat
  | [], acc => some acc
  | c :: cs, acc =>
    if c.isDigit then digitsVal cs (acc * 10 + (c.toNat - 48)) else none

/-- Rust `str::parse` for an unsigned integer type, before the range check:
empty input (also a bare `+`) fails, any non-digit fails. -/
def rustParseNat (s : String) : Option Nat :=
  let cs := stripPlus s.data
  if cs.isEmpty then none else digitsVal cs 0

/-- `str::parse::<u64>()`: values of `2^64` and above fail (`PosOverflow`). -/
def rustParseU64 (s : String) : Option Nat :=
  (rustParseNat s).bind fun n => if n < 2 ^ 64 then some n else none

/-- `str::parse::<u32>()`: values of `2^32` and above fail (`PosOverflow`). -/
def rustParseU32 (s : String) : Option Nat :=
  (rustParseNat s).bind fun n => if n < 2 ^ 32 then some n else none

/-! ## The per-line parse of `Client::download_list` (src/lib.rs:104-113)

For each line: `toks = line.split(",")`; the first token must be present
(`MissingRank`) and parse as a `u64` (`InvalidRank`); the second token must
be present (`MissingDomain`) and is taken verbatim as the domain. -/

def parseLine (line : String) : Except DownloadListError RankedDomain :=
  let toks := commaSplit line
  match toks[0]? with
  | none => .error .MissingRank
  | some rankTok =>
    match rustParseU64 rankTok with
    | none => .error (.InvalidRank rankTok)
    | some rank =>
      match toks[1]? with
      | none => .error .MissingDomain
      | some domain => .ok { rank := rank, domain := domain }

/-- The `.map(...).collect::<Result<Vec<_>, _>>()` over the body's lines:
left to right, stopping at the first failing line with its error; on
success the records in file order. -/
def parseBody : List String → Except DownloadListError (List RankedDomain)
  | [] => .ok []
  | l :: ls => do
    let r ← parseLine l
    let rest ← parseBody ls
    .ok (r :: rest)

/-! ## Decimal formatting (Rust `Display` for unsigned integers)

`natReprAux` peels digits least-significant first onto an accumulator; the
fuel argument (any value above the digit count suffices, `n + 1` is used)
keeps the recursion structural so that closed instances evaluate. -/

def natReprAux : Nat → Nat → List Char → List Char
  | 0, _, acc => acc
  | fuel + 1, n, acc =>
    if n < 10 then Nat.digitChar (n % 10) :: acc
    else natReprAux fuel (n / 10) (Nat.digitChar (n % 10) :: acc)

/-- Decimal representation of a non-negative integer, as Rust
`format!("{n}")` renders it. -/
def natRepr (n : Nat) : String := String.mk (natReprAux (n + 1) n [])

/-! ## URL construction of `Client::list_date` (src/lib.rs:63-85) -/

def API_BASE : String := "https://tranco-list.eu/api"

/-- Rust `Display` for `bool`. -/
def boolRepr : Bool → String
  | true => "true"
  | false => "false"

/-- Rust format specifier `{n:0w}` on an unsigned integer: the decimal
digits, left-padded with `0` to a minimum width of `w`. -/
def rustPad (width : Nat) (n : Nat) : String :=
  String.mk (List.replicate (width - (natRepr n).data.length) '0' ++ (natRepr n).data)

/-- The URL of
`format!("{API_BASE}/lists/date/{year:04}{month:02}{day:02}{}", ...)`
where the last argument is `"?subdomains={subdomains}"` when the option is
present and the empty string otherwise. -/
def listDateUrl (year month day : Nat) (subdomains : Option Bool) : String :=
  API_BASE ++ "/lists/date/" ++ rustPad 4 year ++ rustPad 2 month ++ rustPad 2 day ++
    (match subdomains with
     | some b => "?subdomains=" ++ boolRepr b
     | none => "")

/-! ## JSON values

A `num` models a JSON non-negative integer as serde_json hands it to
`visit_u64` (the payloads of the claims use no negative or fractional
numbers); theorems carry the `< 2^64` range where it matters. -/

inductive Json where
  | null
  | bool (b : Bool)
  | num (n : Nat)
  | str (s : String)
  | arr (elems : List Json)
  | obj (fields : List (String × Json))

/-! ## The enums of the configuration schema (src/lib.rs:218-284) -/

inductive Provider where
  | Crux | Majestic | Radar | Umbrella | Alexa | Quantcast | Farsight
deriving DecidableEq

inductive CombinationMethod where
  | Dowdall | Borda
deriving DecidableEq

inductive ListPrefix where
  | Full
  | Length (n : Nat)
deriving DecidableEq

inductive ToggleOption where
  | On | Off
deriving DecidableEq

/-- `impl Default for ToggleOption` (src/lib.rs:255-259). -/
def toggleOptionDefault : ToggleOption := ToggleOption.Off

inductive FilterTldOption where
  | Include | False
deriving DecidableEq

inductive CruxMonth where
  | Latest
  | Specific (s : String)
deriving DecidableEq

inductive CruxType where
  | Global | Country | Region | Subregion
deriving DecidableEq

/-! ## Deserializers

Each `decode*` is the `Deserialize` impl of the corresponding type on the
`Json` model: the derived impls for the plain enums (string of the
lowercased variant name), and the two hand-written visitor impls for
`ListPrefix` and `CruxMonth`. The error strings stand for serde's
messages; no theorem depends on the text of an error the source does not
itself format. -/

def decodeToggle : Json → Except String ToggleOption
  | .str s =>
    if s = "on" then .ok .On
    else if s = "off" then .ok .Off
    else .error ("unknown variant " ++ s ++ ", expected on or off")
  | _ => .error "invalid type, expected string for ToggleOption"

def decodeProvider : Json → Except String Provider
  | .str s =>
    if s = "crux" then .ok .Crux
    else if s = "majestic" then .ok .Majestic
    else if s = "radar" then .ok .Radar
    else if s = "umbrella" then .ok .Umbrella
    else if s = "alexa" then .ok .Alexa
    else if s = "quantcast" then .ok .Quantcast
    else if s = "farsight" then .ok .Farsight
    else .error ("unknown variant " ++ s)
  | _ => .error "invalid type, expected string for Provider"

def decodeCombinationMethod : Json → Except String CombinationMethod
  | .str s =>
    if s = "dowdall" then .ok .Dowdall
    else if s = "borda" then .ok .Borda
    else .error ("unknown variant " ++ s ++ ", expected dowdall or borda")
  | _ => .error "invalid type, expected string for CombinationMethod"

def decodeFilterTldOption : Json → Except String FilterTldOption
  | .str s =>
    if s = "include" then .ok .Include
    else if s = "false" then .ok .False
    else .error ("unknown variant " ++ s ++ ", expected include or false")
  | _ => .error "invalid type, expected string for FilterTldOption"

def decodeCruxType : Json → Except String CruxType
  | .str s =>
    if s = "global" then .ok .Global
    else if s = "country" then .ok .Country
    else if s = "region" then .ok .Region
    else if s = "subregion" then .ok .Subregion
    else .error ("unknown variant " ++ s)
  | _ => .error "invalid type, expected string for CruxType"

def decodeString : Json → Except String String
  | .str s => .ok s
  | _ => .error "invalid type, expected string"

/-- `u32` from a JSON number: out-of-range integers are a decode error. -/
def decodeU32 : Json → Except String Nat
  | .num n => if n < 2 ^ 32 then .ok n else .error "invalid value, out of range for u32"
  | _ => .error "invalid type, expected u32"

def decodeStringList : Json → Except String (List String)
  | .arr xs => xs.mapM decodeString
  | _ => .error "invalid type, expected a sequence"

def decodeProviderList : Json → Except String (List Provider)
  | .arr xs => xs.mapM decodeProvider
  | _ => .error "invalid type, expected a sequence"

/-- serde's `Option<T>`: `null` is `None`, anything else is `Some` of the
inner decode. -/
def decodeOption {α : Type} (dec : Json → Except String α) : Json → Except String (Option α)
  | .null => .ok none
  | j => (dec j).map some

/-- The hand-written `Deserialize` for `ListPrefix` (src/lib.rs:287-322):
`deserialize_any` with a visitor whose `visit_str` accepts `"full"` or a
string parsing as `u32`, and whose `visit_u64` accepts every `u64`,
casting it `as u32` (truncation modulo `2^32`). -/
def decodeListPrefix : Json → Except String ListPrefix
  | .str value =>
    if value = "full" then .ok .Full
    else
      match rustParseU32 value with
      | some n => .ok (.Length n)
      | none => .error ("invalid digit or out of range: " ++ value)
  | .num value => .ok (.Length (value % 2 ^ 32))
  | _ => .error "invalid type, expected an integer or the string full"

/-- The hand-written `Deserialize` for `CruxMonth` (src/lib.rs:325-361):
`deserialize_str` with a visitor accepting `"latest"`, or a string whose
byte length is 6 and whose characters all satisfy `is_digit(10)` (ASCII
digits); anything else errors with a message naming the format. -/
def decodeCruxMonth : Json → Except String CruxMonth
  | .str value =>
    if value = "latest" then .ok .Latest
    else
      if value.utf8ByteSize == 6 && value.data.all (fun c => c.isDigit) then
        .ok (.Specific value)
      else
        .error ("Expected YYYYMM format or \"latest\", got " ++ value)
  | _ => .error "invalid type, expected a string in format YYYYMM or \"latest\""

/-! ## The `Configuration` struct (src/lib.rs:152-216)

Field names follow the source (`list_prefix` is written `listPrefix`
here). The derived serde impl is modelled over the object's key/value
list: camelCase wire names (with the source's explicit renames
`filterPLD`, `filterTLD`, `filterTLDValue`, `filterCRUX`,
`filterCRUXMonth`, `filterCRUXType`, `filterCRUXValue`), a missing field
being an error unless the source marks it `#[serde(default)]`, in which
case the field's default value is used. Unknown keys are ignored;
payloads with a duplicated key (which serde rejects) are outside the
claims and not modelled. -/

structure Configuration where
  providers : List Provider
  start_date : String
  end_date : String
  combination_method : CombinationMethod
  listPrefix : ListPrefix
  filter_pld : ToggleOption
  inclusion_days : ToggleOption
  inclusion_days_value : Option Nat
  inclusion_lists : ToggleOption
  inclusion_lists_value : Option Nat
  filter_tld : Option FilterTldOption
  filter_tld_value : Option (List String)
  filter_organization : ToggleOption
  filter_subdomain : ToggleOption
  filter_subdomain_value : Option (List String)
  filter_safe_browsing : ToggleOption
  filter_crux : ToggleOption
  filter_crux_month : Option CruxMonth
  filter_crux_type : Option CruxType
  filter_crux_value : Option (List String)
deriving DecidableEq

/-- First value stored under a key of the object. -/
def lookupField (fs : List (String × Json)) (name : String) : Option Json :=
  List.lookup name fs

/-- A field without `#[serde(default)]`: absent is a decode error. -/
def reqField {α : Type} (fs : List (String × Json)) (name : String)
    (dec : Json → Except String α) : Except String α :=
  match lookupField fs name with
  | some v => dec v
  | none => .error ("missing field " ++ name)

/-- A `#[serde(default)]` field: absent decodes to the default value. -/
def optFieldD {α : Type} (fs : List (String × Json)) (name : String)
    (dec : Json → Except String α) (dflt : α) : Except String α :=
  match lookupField fs name with
  | some v => dec v
  | none => .ok dflt

/-- The derived `Deserialize` for `Configuration`. -/
def decodeConfiguration : Json → Except String Configuration
  | .obj fs => do
    let providers ← reqField fs "providers" decodeProviderList
    let start_date ← reqField fs "startDate" decodeString
    let end_date ← reqField fs "endDate" decodeString
    let combination_method ← reqField fs "combinationMethod" decodeCombinationMethod
    let listPrefix ← reqField fs "listPrefix" decodeListPrefix
    let filter_pld ← reqField fs "filterPLD" decodeToggle
    let inclusion_days ← optFieldD fs "inclusionDays" decodeToggle toggleOptionDefault
    let inclusion_days_value ← optFieldD fs "inclusionDaysValue" (decodeOption decodeU32) none
    let inclusion_lists ← optFieldD fs "inclusionLists" decodeToggle toggleOptionDefault
    let inclusion_lists_value ← optFieldD fs "inclusionListsValue" (decodeOption decodeU32) none
    let filter_tld ← optFieldD fs "filterTLD" (decodeOption decodeFilterTldOption) none
    let filter_tld_value ← optFieldD fs "filterTLDValue" (decodeOption decodeStringList) none
    let filter_organization ← optFieldD fs "filterOrganization" decodeToggle toggleOptionDefault
    let filter_subdomain ← optFieldD fs "filterSubdomain" decodeToggle toggleOptionDefault
    let filter_subdomain_value ← optFieldD fs "filterSubdomainValue" (decodeOption decodeStringList) none
    let filter_safe_browsing ← optFieldD fs "filterSafeBrowsing" decodeToggle toggleOptionDefault
    let filter_crux ← optFieldD fs "filterCRUX" decodeToggle toggleOptionDefault
    let filter_crux_month ← optFieldD fs "filterCRUXMonth" (decodeOption decodeCruxMonth) none
    let filter_crux_type ← optFieldD fs "filterCRUXType" (decodeOption decodeCruxType) none
    let filter_crux_value ← optFieldD fs "filterCRUXValue" (decodeOption decodeStringList) none
    .ok { providers, start_date, end_date, combination_method, listPrefix, filter_pld,
          inclusion_days, inclusion_days_value, inclusion_lists, inclusion_lists_value,
          filter_tld, filter_tld_value, filter_organization, filter_subdomain,
          filter_subdomain_value, filter_safe_browsing, filter_crux, filter_crux_month,
          filter_crux_type, filter_crux_value }
  | _ => .error "invalid type, expected struct Configuration"

end Tranco

deriving instance DecidableEq for Except

namespace Tranco

/-! ## Supporting lemmas: comma splitting -/

theorem mk_data (s : String) : String.mk s.data = s := rfl

theorem splitCore_ne_nil (cs acc : List Char) : splitCore cs acc ≠ [] := by
  induction cs generalizing acc with
  | nil => simp [splitCore]
  | cons c cs ih =>
    by_cases hc : c = ','
    · simp [splitCore, hc]
    · simpa [splitCore, hc] using ih (c :: acc)

theorem splitCore_no_sep (cs acc : List Char) (h : ∀ c ∈ cs, c ≠ ',') :
    splitCore cs acc = [String.mk (acc.reverse ++ cs)] := by
  induction cs generalizing acc with
  | nil => simp [splitCore]
  | cons c cs ih =>
    have hc : c ≠ ',' := h c (List.mem_cons_self _ _)
    rw [splitCore, if_neg hc, ih (c :: acc) (fun x hx => h x (List.mem_cons_of_mem _ hx))]
    simp

theorem splitCore_sep (xs ys acc : List Char) (h : ∀ c ∈ xs, c ≠ ',') :
    splitCore (xs ++ ',' :: ys) acc = String.mk (acc.reverse ++ xs) :: splitCore ys [] := by
  induction xs generalizing acc with
  | nil => simp [splitCore]
  | cons c cs ih =>
    have hc : c ≠ ',' := h c (List.mem_cons_self _ _)
    rw [List.cons_append, splitCore, if_neg hc,
      ih (c :: acc) (fun x hx => h x (List.mem_cons_of_mem _ hx))]
    simp

theorem commaSplit_single (line : String) (h : ∀ c ∈ line.data, c ≠ ',') :
    commaSplit line = [line] := by
  rw [commaSplit, splitCore_no_sep _ _ h]
  simp [mk_data]

/-! ## Supporting lemmas: characters and digit runs -/

theorem isDigit_ne_comma {c : Char} (h : c.isDigit = true) : c ≠ ',' := by
  intro heq; subst heq; exact absurd h (by decide)

theorem isDigit_ne_plus {c : Char} (h : c.isDigit = true) : c ≠ '+' := by
  intro heq; subst heq; exact absurd h (by decide)

theorem isDigit_ne_qmark {c : Char} (h : c.isDigit = true) : c ≠ '?' := by
  intro heq; subst heq; exact absurd h (by decide)

theorem utf8Size_of_isDigit {c : Char} (h : c.isDigit = true) : c.utf8Size = 1 := by
  have h2 : c.val ≤ 57 := by
    have hh := h
    simp [Char.isDigit, Bool.and_eq_true] at hh
    exact hh.2
  rw [Char.utf8Size]
  exact if_pos (UInt32.le_trans h2 (by decide))

theorem digitsVal_append (xs ys : List Char) (a : Nat) :
    digitsVal (xs ++ ys) a =
      match digitsVal xs a with
      | some b => digitsVal ys b
      | none => none := by
  induction xs generalizing a with
  | nil => simp [digitsVal]
  | cons c cs ih =>
    by_cases hc : c.isDigit
    · simp [digitsVal, hc, ih]
    · simp [digitsVal, hc]

theorem digitChar_isDigit {m : Nat} (h : m < 10) : (Nat.digitChar m).isDigit = true := by
  interval_cases m <;> decide

theorem digitChar_toNat {m : Nat} (h : m < 10) : (Nat.digitChar m).toNat = 48 + m := by
  interval_cases m <;> decide

theorem digitsVal_digitChar (m a : Nat) (h : m < 10) :
    digitsVal [Nat.digitChar m] a = some (a * 10 + m) := by
  simp [digitsVal, digitChar_isDigit h, digitChar_toNat h]

/-! ## Supporting lemmas: decimal formatting round-trips through parsing -/

theorem natReprAux_acc (n : Nat) : ∀ fuel acc, n < fuel →
    natReprAux fuel n acc = natReprAux fuel n [] ++ acc := by
  induction n using Nat.strong_induction_on with
  | _ n ih =>
    intro fuel acc hfuel
    match fuel, hfuel with
    | fuel + 1, hfuel =>
      by_cases h10 : n < 10
      · simp [natReprAux, h10]
      · have hdiv : n / 10 < n := Nat.div_lt_self (by omega) (by omega)
        have hfuel2 : n / 10 < fuel := by omega
        rw [natReprAux, if_neg h10, natReprAux, if_neg h10,
          ih (n / 10) hdiv fuel (Nat.digitChar (n % 10) :: acc) hfuel2,
          ih (n / 10) hdiv fuel [Nat.digitChar (n % 10)] hfuel2]
        simp

theorem natReprAux_digits (n : Nat) : ∀ fuel acc, n < fuel →
    (∀ c ∈ acc, c.isDigit = true) → ∀ c ∈ natReprAux fuel n acc, c.isDigit = true := by
  induction n using Nat.strong_induction_on with
  | _ n ih =>
    intro fuel acc hfuel hacc
    match fuel, hfuel with
    | fuel + 1, hfuel =>
      have hd : (Nat.digitChar (n % 10)).isDigit = true :=
        digitChar_isDigit (Nat.mod_lt _ (by omega))
      by_cases h10 : n < 10
      · rw [natReprAux, if_pos h10]
        intro c hc
        rcases List.mem_cons.mp hc with h | h
        · exact h ▸ hd
        · exact hacc c h
      · have hdiv : n / 10 < n := Nat.div_lt_self (by omega) (by omega)
        rw [natReprAux, if_neg h10]
        refine ih (n / 10) hdiv fuel _ (by omega) ?_
        intro c hc
        rcases List.mem_cons.mp hc with h | h
        · exact h ▸ hd
        · exact hacc c h

theorem natReprAux_ne_nil : ∀ fuel n acc, 0 < fuel ∨ acc ≠ [] → natReprAux fuel n acc ≠ [] := by
  intro fuel
  induction fuel with
  | zero =>
    intro n acc h
    simp [natReprAux]
    rcases h with h | h
    · omega
    · exact h
  | succ fuel ih =>
    intro n acc h
    by_cases h10 : n < 10
    · simp [natReprAux, h10]
    · rw [natReprAux, if_neg h10]
      exact ih (n / 10) _ (Or.inr (by simp))

theorem digitsVal_natReprAux (n : Nat) : ∀ fuel, n < fuel →
    digitsVal (natReprAux fuel n []) 0 = some n := by
  induction n using Nat.strong_induction_on with
  | _ n ih =>
    intro fuel hfuel
    match fuel, hfuel with
    | fuel + 1, hfuel =>
      have hmod : n % 10 < 10 := Nat.mod_lt _ (by omega)
      by_cases h10 : n < 10
      · rw [natReprAux, if_pos h10, digitsVal_digitChar _ _ hmod]
        simp [Nat.mod_eq_of_lt h10]
      · have hdiv : n / 10 < n := Nat.div_lt_self (by omega) (by omega)
        have hfuel2 : n / 10 < fuel := by omega
        rw [natReprAux, if_neg h10,
          natReprAux_acc (n / 10) fuel [Nat.digitChar (n % 10)] hfuel2,
          digitsVal_append, ih (n / 10) hdiv fuel hfuel2]
        show digitsVal [Nat.digitChar (n % 10)] (n / 10) = some n
        rw [digitsVal_digitChar _ _ hmod]
        have heq : n / 10 * 10 + n % 10 = n := by omega
        rw [heq]

theorem natRepr_digits (n : Nat) : ∀ c ∈ (natRepr n).data, c.isDigit = true := by
  intro c hc
  exact natReprAux_digits n (n + 1) [] (by omega) (by simp) c hc

theorem natRepr_ne_nil (n : Nat) : (natRepr n).data ≠ [] :=
  natReprAux_ne_nil (n + 1) n [] (Or.inl (by omega))

theorem digitsVal_natRepr (n : Nat) : digitsVal (natRepr n).data 0 = some n :=
  digitsVal_natReprAux n (n + 1) (by omega)

theorem stripPlus_of_digits (cs : List Char) (h : ∀ c ∈ cs, c.isDigit = true) :
    stripPlus cs = cs := by
  match cs with
  | [] => rfl
  | c :: rest =>
    have hc : c ≠ '+' := isDigit_ne_plus (h c (List.mem_cons_self _ _))
    rw [stripPlus, if_neg hc]

theorem rustParseNat_natRepr (n : Nat) : rustParseNat (natRepr n) = some n := by
  rw [rustParseNat]
  rw [stripPlus_of_digits _ (natRepr_digits n)]
  rw [List.isEmpty_eq_false_iff_exists_mem.mpr ?side]
  case side =>
    rcases List.exists_mem_of_ne_nil _ (natRepr_ne_nil n) with ⟨x, hx⟩
    exact ⟨x, hx⟩
  simp [digitsVal_natRepr n]

theorem rustParseU64_natRepr (n : Nat) (h : n < 2 ^ 64) :
    rustParseU64 (natRepr n) = some n := by
  rw [rustParseU64, rustParseNat_natRepr]
  show (if n < 2 ^ 64 then some n else none) = some n
  rw [if_pos h]

theorem rustParseU32_natRepr (n : Nat) (h : n < 2 ^ 32) :
    rustParseU32 (natRepr n) = some n := by
  rw [rustParseU32, rustParseNat_natRepr]
  show (if n < 2 ^ 32 then some n else none) = some n
  rw [if_pos h]

/-! ## Supporting lemmas: the line parse of `download_list` -/

theorem exceptBindOk {ε α β : Type} {x : Except ε α} {f : α → Except ε β} {r : β}
    (h : (x >>= f) = .ok r) : ∃ a, x = .ok a ∧ f a = .ok r := by
  cases x with
  | error e => simp [Bind.bind, Except.bind] at h
  | ok a => exact ⟨a, rfl, by simpa [Bind.bind, Except.bind] using h⟩

theorem parseLine_of_split (line t0 t1 : String) (rest : List String) (n : Nat)
    (hsplit : commaSplit line = t0 :: t1 :: rest)
    (hrank : rustParseU64 t0 = some n) :
    parseLine line = .ok { rank := n, domain := t1 } := by
  simp [parseLine, hsplit, hrank]

theorem parseLine_leading_comma (rest : List Char) :
    parseLine (String.mk (',' :: rest)) = .error (.InvalidRank "") := by
  have hsplit : commaSplit (String.mk (',' :: rest)) = "" :: splitCore rest [] := by
    rw [commaSplit]
    show splitCore (',' :: rest) [] = _
    rw [splitCore, if_pos rfl]
    rfl
  have hempty : rustParseU64 "" = none := by decide
  simp [parseLine, hsplit, hempty]

theorem parseLine_outcomes (line : String) :
    (∃ rd, parseLine line = .ok rd) ∨
      (∃ t, parseLine line = .error (.InvalidRank t)) ∨
      parseLine line = .error .MissingDomain := by
  cases hsplit : commaSplit line with
  | nil => exact absurd hsplit (splitCore_ne_nil _ _)
  | cons t0 ts =>
    cases h0 : rustParseU64 t0 with
    | none =>
      refine Or.inr (Or.inl ⟨t0, ?_⟩)
      simp [parseLine, hsplit, h0]
    | some n =>
      cases ts with
      | nil =>
        refine Or.inr (Or.inr ?_)
        simp [parseLine, hsplit, h0]
      | cons t1 ts2 =>
        exact Or.inl ⟨_, parseLine_of_split line t0 t1 ts2 n hsplit h0⟩

/-! ## Supporting lemmas: zero-padded URL segments -/

theorem natReprAux_length (n : Nat) : ∀ k fuel, n < fuel → n < 10 ^ k → 0 < k →
    (natReprAux fuel n []).length ≤ k := by
  induction n using Nat.strong_induction_on with
  | _ n ih =>
    intro k fuel hfuel hk hkpos
    match fuel, hfuel with
    | fuel + 1, hfuel =>
      by_cases h10 : n < 10
      · rw [natReprAux, if_pos h10]
        simpa using hkpos
      · have hdiv : n / 10 < n := Nat.div_lt_self (by omega) (by omega)
        have hfuel2 : n / 10 < fuel := by omega
        have hk2 : 2 ≤ k := by
          rcases Nat.lt_or_ge k 2 with hlt | hge
          · interval_cases k
            omega
          · exact hge
        have hdivk : n / 10 < 10 ^ (k - 1) := by
          rw [Nat.div_lt_iff_lt_mul (by omega)]
          calc n < 10 ^ k := hk
            _ = 10 ^ (k - 1) * 10 := by
                rw [← pow_succ]
                congr 1
                omega
        rw [natReprAux, if_neg h10, natReprAux_acc (n / 10) fuel _ hfuel2,
          List.length_append]
        have hrec := ih (n / 10) hdiv (k - 1) fuel hfuel2 hdivk (by omega)
        simp
        omega

theorem natRepr_length_le (n k : Nat) (h1 : n < 10 ^ k) (h2 : 0 < k) :
    (natRepr n).data.length ≤ k :=
  natReprAux_length n k (n + 1) (by omega) h1 h2

theorem rustPad_data (w n : Nat) :
    (rustPad w n).data
      = List.replicate (w - (natRepr n).data.length) '0' ++ (natRepr n).data := rfl

theorem rustPad_length (w n : Nat) (h : (natRepr n).data.length ≤ w) :
    (rustPad w n).data.length = w := by
  rw [rustPad_data, List.length_append, List.length_replicate]
  omega

theorem rustPad_digits (w n : Nat) : ∀ c ∈ (rustPad w n).data, c.isDigit = true := by
  intro c hc
  rw [rustPad_data] at hc
  rcases List.mem_append.mp hc with h | h
  · rw [List.eq_of_mem_replicate h]
    decide
  · exact natRepr_digits n c h

/-! ## Supporting lemmas: UTF-8 byte length of digit strings -/

theorem utf8Go_of_digits (cs : List Char) (h : ∀ c ∈ cs, c.isDigit = true) :
    String.utf8ByteSize.go cs = cs.length := by
  induction cs with
  | nil => rfl
  | cons c rest ih =>
    rw [String.utf8ByteSize.go, utf8Size_of_isDigit (h c (List.mem_cons_self _ _)),
      ih (fun x hx => h x (List.mem_cons_of_mem _ hx))]
    simp

theorem utf8ByteSize_of_digits (s : String) (h : ∀ c ∈ s.data, c.isDigit = true) :
    s.utf8ByteSize = s.data.length := by
  cases s with
  | mk data => exact utf8Go_of_digits data h

/-! ## Example payloads -/

/-- A payload holding every field the source requires, with each
defaultable toggle and value field absent. -/
def minimalFields : List (String × Json) :=
  [("providers", .arr [.str "majestic", .str "umbrella"]),
   ("startDate", .str "2025-03-01"),
   ("endDate", .str "2025-03-30"),
   ("combinationMethod", .str "dowdall"),
   ("listPrefix", .str "full"),
   ("filterPLD", .str "off")]

/-- The same payload with the `filterPLD` key removed. -/
def minimalFieldsNoPld : List (String × Json) :=
  [("providers", .arr [.str "majestic", .str "umbrella"]),
   ("startDate", .str "2025-03-01"),
   ("endDate", .str "2025-03-30"),
   ("combinationMethod", .str "dowdall"),
   ("listPrefix", .str "full")]

/-- The configuration `minimalFields` decodes to. -/
def minimalConfig : Configuration :=
  { providers := [.Majestic, .Umbrella], start_date := "2025-03-01",
    end_date := "2025-03-30", combination_method := .Dowdall, listPrefix := .Full,
    filter_pld := .Off,
    inclusion_days := .Off, inclusion_days_value := none,
    inclusion_lists := .Off, inclusion_lists_value := none,
    filter_tld := none, filter_tld_value := none,
    filter_organization := .Off, filter_subdomain := .Off,
    filter_subdomain_value := none, filter_safe_browsing := .Off,
    filter_crux := .Off, filter_crux_month := none,
    filter_crux_type := none, filter_crux_value := none }

/-! ## The claims -/

/-- C1, counterexample: a payload holding every other required field but
omitting `filterPLD` does not decode to a configuration with the toggle
off; it fails with a missing-field error, because the source marks
`filter_pld` with `#[serde(rename = "filterPLD")]` but not
`#[serde(default)]`. -/
theorem c1_missing_filterPLD_errors :
    decodeConfiguration (.obj minimalFieldsNoPld) = .error "missing field filterPLD" := by
  decide

/-- C1 (amended): every toggle-style field decodes from the lowercase
string "on" or "off" and from nothing else; the six toggles marked
`#[serde(default)]` (inclusion_days, inclusion_lists,
filter_organization, filter_subdomain, filter_safe_browsing, filter_crux)
each decode to Off when their key is absent from a successfully decoded
payload; `filterPLD`, however, is required: a payload that decodes
successfully always contains it. -/
theorem c1_toggle_defaults (fs : List (String × Json)) (c : Configuration)
    (h : decodeConfiguration (.obj fs) = .ok c) :
    (∀ s : String, ∀ t : ToggleOption,
        decodeToggle (.str s) = .ok t ↔ ((s = "on" ∧ t = .On) ∨ (s = "off" ∧ t = .Off))) ∧
    (∃ v, lookupField fs "filterPLD" = some v) ∧
    (lookupField fs "inclusionDays" = none → c.inclusion_days = .Off) ∧
    (lookupField fs "inclusionLists" = none → c.inclusion_lists = .Off) ∧
    (lookupField fs "filterOrganization" = none → c.filter_organization = .Off) ∧
    (lookupField fs "filterSubdomain" = none → c.filter_subdomain = .Off) ∧
    (lookupField fs "filterSafeBrowsing" = none → c.filter_safe_browsing = .Off) ∧
    (lookupField fs "filterCRUX" = none → c.filter_crux = .Off) := by
  rw [decodeConfiguration] at h
  obtain ⟨a1, h1, h⟩ := exceptBindOk h
  obtain ⟨a2, h2, h⟩ := exceptBindOk h
  obtain ⟨a3, h3, h⟩ := exceptBindOk h
  obtain ⟨a4, h4, h⟩ := exceptBindOk h
  obtain ⟨a5, h5, h⟩ := exceptBindOk h
  obtain ⟨a6, h6, h⟩ := exceptBindOk h
  obtain ⟨a7, h7, h⟩ := exceptBindOk h
  obtain ⟨a8, h8, h⟩ := exceptBindOk h
  obtain ⟨a9, h9, h⟩ := exceptBindOk h
  obtain ⟨a10, h10, h⟩ := exceptBindOk h
  obtain ⟨a11, h11, h⟩ := exceptBindOk h
  obtain ⟨a12, h12, h⟩ := exceptBindOk h
  obtain ⟨a13, h13, h⟩ := exceptBindOk h
  obtain ⟨a14, h14, h⟩ := exceptBindOk h
  obtain ⟨a15, h15, h⟩ := exceptBindOk h
  obtain ⟨a16, h16, h⟩ := exceptBindOk h
  obtain ⟨a17, h17, h⟩ := exceptBindOk h
  obtain ⟨a18, h18, h⟩ := exceptBindOk h
  obtain ⟨a19, h19, h⟩ := exceptBindOk h
  obtain ⟨a20, h20, h⟩ := exceptBindOk h
  rw [Except.ok.injEq] at h
  subst h
  refine ⟨?_, ?_, ?_, ?_, ?_, ?_, ?_, ?_⟩
  · intro s t
    constructor
    · intro hd
      simp only [decodeToggle] at hd
      split_ifs at hd with hon hoff
      · rw [Except.ok.injEq] at hd
        exact Or.inl ⟨hon, hd.symm⟩
      · rw [Except.ok.injEq] at hd
        exact Or.inr ⟨hoff, hd.symm⟩
    · rintro (⟨hs, ht⟩ | ⟨hs, ht⟩) <;> subst hs <;> subst ht <;> decide
  · cases hpld : lookupField fs "filterPLD" with
    | none =>
      rw [reqField, hpld] at h6
      exact absurd h6 (by simp)
    | some v => exact ⟨v, rfl⟩
  · intro hnone
    rw [optFieldD, hnone, Except.ok.injEq] at h7
    exact h7.symm ▸ rfl
  · intro hnone
    rw [optFieldD, hnone, Except.ok.injEq] at h9
    exact h9.symm ▸ rfl
  · intro hnone
    rw [optFieldD, hnone, Except.ok.injEq] at h13
    exact h13.symm ▸ rfl
  · intro hnone
    rw [optFieldD, hnone, Except.ok.injEq] at h14
    exact h14.symm ▸ rfl
  · intro hnone
    rw [optFieldD, hnone, Except.ok.injEq] at h16
    exact h16.symm ▸ rfl
  · intro hnone
    rw [optFieldD, hnone, Except.ok.injEq] at h17
    exact h17.symm ▸ rfl

/-- C1, witness: the amended claim applied to the concrete minimal
payload, which omits all six defaultable toggles and decodes with every
toggle Off. -/
theorem c1_toggle_defaults_witness :
    (∀ s : String, ∀ t : ToggleOption,
        decodeToggle (.str s) = .ok t ↔ ((s = "on" ∧ t = .On) ∨ (s = "off" ∧ t = .Off))) ∧
    (∃ v, lookupField minimalFields "filterPLD" = some v) ∧
    (lookupField minimalFields "inclusionDays" = none → minimalConfig.inclusion_days = .Off) ∧
    (lookupField minimalFields "inclusionLists" = none → minimalConfig.inclusion_lists = .Off) ∧
    (lookupField minimalFields "filterOrganization" = none →
        minimalConfig.filter_organization = .Off) ∧
    (lookupField minimalFields "filterSubdomain" = none →
        minimalConfig.filter_subdomain = .Off) ∧
    (lookupField minimalFields "filterSafeBrowsing" = none →
        minimalConfig.filter_safe_browsing = .Off) ∧
    (lookupField minimalFields "filterCRUX" = none → minimalConfig.filter_crux = .Off) :=
  c1_toggle_defaults minimalFields minimalConfig (by decide)

/-- C2, counterexample: the line ",example.com" does not yield the
missing-rank error; splitting always yields a first token, here the empty
string, whose integer parse fails, so the invalid-rank error is produced
instead. -/
theorem c2_leading_comma_not_missing_rank :
    parseLine ",example.com" = .error (.InvalidRank "") ∧
    DownloadListError.InvalidRank "" ≠ DownloadListError.MissingRank :=
  ⟨by decide, by decide⟩

/-- C2 (amended): a line starting with "," has an empty first token and
yields the invalid-rank error carrying that empty token; a line with a
present but non-numeric first token such as "abc,example.com" also yields
invalid-rank; the missing-rank error is unreachable from line parsing
(every parse is a success, an invalid-rank, or a missing-domain), and
invalid-rank remains a variant distinct from missing-rank. -/
theorem c2_rank_error_classification :
    (∀ rest : List Char, parseLine (String.mk (',' :: rest)) = .error (.InvalidRank "")) ∧
    parseLine ",example.com" = .error (.InvalidRank "") ∧
    parseLine "abc,example.com" = .error (.InvalidRank "abc") ∧
    (∀ line : String,
      (∃ rd, parseLine line = .ok rd) ∨
        (∃ t, parseLine line = .error (.InvalidRank t)) ∨
        parseLine line = .error .MissingDomain) ∧
    (∀ t : String, DownloadListError.InvalidRank t ≠ .MissingRank) :=
  ⟨parseLine_leading_comma, by decide, by decide, parseLine_outcomes,
    fun _ h => DownloadListError.noConfusion h⟩

/-- C3, counterexample: at rank 2^64 (the first value outside `u64`) the
encoded line fails to parse back, with an invalid-rank error from the
overflowing integer parse, instead of round-tripping. -/
theorem c3_large_rank_fails :
    parseLine (natRepr (2 ^ 64) ++ "," ++ "example.com")
        = .error (.InvalidRank "18446744073709551616") ∧
    parseLine (natRepr (2 ^ 64) ++ "," ++ "example.com")
        ≠ .ok { rank := 2 ^ 64, domain := "example.com" } :=
  ⟨by decide, by decide⟩

/-- C3 (amended): for every rank below 2^64 and every domain containing
no comma and no newline, parsing the line "{rank},{domain}" succeeds and
returns exactly that rank and domain. -/
theorem c3_roundtrip (rank : Nat) (domain : String)
    (hrank : rank < 2 ^ 64)
    (hcomma : ∀ c ∈ domain.data, c ≠ ',')
    (hnewline : ∀ c ∈ domain.data, c ≠ '\n') :
    parseLine (natRepr rank ++ "," ++ domain) = .ok { rank := rank, domain := domain } := by
  have hdata : (natRepr rank ++ "," ++ domain).data
      = (natRepr rank).data ++ ',' :: domain.data := by
    rw [String.data_append, String.data_append]
    simp
  have hsplit : commaSplit (natRepr rank ++ "," ++ domain)
      = natRepr rank :: domain :: [] := by
    rw [commaSplit, hdata,
      splitCore_sep _ _ _ (fun c hc => isDigit_ne_comma (natRepr_digits rank c hc)),
      splitCore_no_sep _ _ hcomma]
    simp [mk_data]
  exact parseLine_of_split _ _ _ _ _ hsplit (rustParseU64_natRepr rank hrank)

/-- C3, witness: the round trip at rank 42 and domain "example.com". -/
theorem c3_roundtrip_witness :
    parseLine (natRepr 42 ++ "," ++ "example.com")
        = .ok { rank := 42, domain := "example.com" } :=
  c3_roundtrip 42 "example.com" (by decide) (by decide) (by decide)

/-- C4, counterexample: the JSON integer 2^32 decodes to Length 0 by the
`as u32` truncation, not to Length 2^32. -/
theorem c4_truncation_counterexample :
    decodeListPrefix (.num (2 ^ 32)) = .ok (.Length 0) ∧
    ListPrefix.Length 0 ≠ ListPrefix.Length (2 ^ 32) :=
  ⟨by decide, by decide⟩

/-- C4 (amended): the string "full" decodes to Full; a JSON integer N
decodes, never failing, to Length of N taken modulo 2^32; a decimal
string of an integer below 2^32 decodes to Length of that integer; a
non-numeric string such as "abc", and a numeric string of 2^32 or more,
are decode errors. -/
theorem c4_listprefix_decode :
    decodeListPrefix (.str "full") = .ok .Full ∧
    (∀ n : Nat, n < 2 ^ 64 → decodeListPrefix (.num n) = .ok (.Length (n % 2 ^ 32))) ∧
    (∀ n : Nat, n < 2 ^ 32 → decodeListPrefix (.str (natRepr n)) = .ok (.Length n)) ∧
    decodeListPrefix (.str "100") = .ok (.Length 100) ∧
    (∃ e, decodeListPrefix (.str "abc") = .error e) ∧
    (∃ e, decodeListPrefix (.str (natRepr (2 ^ 32))) = .error e) := by
  refine ⟨by decide, fun n hn => rfl, ?_, by decide,
    ⟨"invalid digit or out of range: abc", by decide⟩,
    ⟨"invalid digit or out of range: 4294967296", by decide⟩⟩
  intro n hn
  have hne : natRepr n ≠ "full" := by
    intro heq
    have hf := natRepr_digits n 'f' (by rw [heq]; decide)
    exact absurd hf (by decide)
  simp [decodeListPrefix, hne, rustParseU32_natRepr n hn]

/-- C5: the CrUX month field decodes "latest" to Latest; every string of
exactly six ASCII digits, including calendar-invalid ones such as
"202513", decodes to Specific of that string; other shapes such as
"2025" and "latest2" fail with a message naming the expected YYYYMM
format. -/
theorem c5_crux_month :
    decodeCruxMonth (.str "latest") = .ok .Latest ∧
    (∀ s : String, s.data.length = 6 → (∀ c ∈ s.data, c.isDigit = true) →
        decodeCruxMonth (.str s) = .ok (.Specific s)) ∧
    decodeCruxMonth (.str "202503") = .ok (.Specific "202503") ∧
    decodeCruxMonth (.str "202513") = .ok (.Specific "202513") ∧
    decodeCruxMonth (.str "2025")
        = .error ("Expected YYYYMM format or \"latest\", got 2025") ∧
    decodeCruxMonth (.str "latest2")
        = .error ("Expected YYYYMM format or \"latest\", got latest2") := by
  refine ⟨by decide, ?_, by decide, by decide, by decide, by decide⟩
  intro s hlen hdig
  have hne : s ≠ "latest" := by
    intro heq
    have hl := hdig 'l' (by rw [heq]; decide)
    exact absurd hl (by decide)
  have hsize : s.utf8ByteSize = 6 := by rw [utf8ByteSize_of_digits s hdig, hlen]
  have hcond : (s.utf8ByteSize == 6 && s.data.all (fun c => c.isDigit)) = true := by
    rw [Bool.and_eq_true, beq_iff_eq, List.all_eq_true]
    exact ⟨hsize, hdig⟩
  simp [decodeCruxMonth, hne, hcond]

/-- C6, counterexample: the line "1,a,b" parses with domain "a", the
second comma-separated token only, not the raw remainder "a,b". -/
theorem c6_comma_remainder_dropped :
    parseLine "1,a,b" = .ok { rank := 1, domain := "a" } ∧
    ({ rank := 1, domain := "a" } : RankedDomain) ≠ { rank := 1, domain := "a,b" } :=
  ⟨by decide, by decide⟩

/-- C6 (amended): when a line splits at commas into a first token that
parses as an integer followed by a second token, the parsed domain is
that second token taken verbatim, with no validation and no unescaping;
any tokens after a second comma are dropped, so "1,a,b" yields domain
"a". -/
theorem c6_domain_second_token (line t0 t1 : String) (rest : List String) (n : Nat)
    (hsplit : commaSplit line = t0 :: t1 :: rest)
    (hrank : rustParseU64 t0 = some n) :
    parseLine line = .ok { rank := n, domain := t1 } :=
  parseLine_of_split line t0 t1 rest n hsplit hrank

/-- C6, witness: the amended claim at the line "1,a,b". -/
theorem c6_domain_second_token_witness :
    parseLine "1,a,b" = .ok { rank := 1, domain := "a" } :=
  c6_domain_second_token "1,a,b" "1" "a" ["b"] 1 (by decide) (by decide)

/-- C7: the collect over parsed lines is fail-fast; whenever every line
before some failing line parses, the whole parse returns exactly that
line's error, and no records are delivered alongside it (the error
constructor of the result carries none). -/
theorem c7_fail_fast (pre : List String) (l : String) (post : List String)
    (e : DownloadListError)
    (hpre : ∀ x ∈ pre, ∃ r, parseLine x = .ok r)
    (hl : parseLine l = .error e) :
    parseBody (pre ++ l :: post) = .error e := by
  induction pre with
  | nil => simp [parseBody, hl, Bind.bind, Except.bind]
  | cons p ps ih =>
    obtain ⟨r, hr⟩ := hpre p (List.mem_cons_self _ _)
    have hrec := ih (fun x hx => hpre x (List.mem_cons_of_mem _ hx))
    simp [parseBody, hr, hrec, Bind.bind, Except.bind]

/-- C7, witness: a good line, then a bad line, then another good line;
the parse returns the middle line's invalid-rank error and discards the
already-parsed first record. -/
theorem c7_fail_fast_witness :
    parseBody (["1,example.com"] ++ "abc,b" :: ["2,c"]) = .error (.InvalidRank "abc") :=
  c7_fail_fast ["1,example.com"] "abc,b" ["2,c"] (.InvalidRank "abc")
    (by
      intro x hx
      rw [List.mem_singleton] at hx
      subst hx
      exact ⟨{ rank := 1, domain := "example.com" }, by decide⟩)
    (by decide)

/-- C8: every line containing no comma whose single token parses as an
integer yields the missing-domain error. -/
theorem c8_no_comma_missing_domain (line : String) (n : Nat)
    (hcomma : ∀ c ∈ line.data, c ≠ ',')
    (hrank : rustParseU64 line = some n) :
    parseLine line = .error .MissingDomain := by
  simp [parseLine, commaSplit_single line hcomma, hrank]

/-- C8, witness: the claim at the comma-free line "42". -/
theorem c8_no_comma_missing_domain_witness :
    parseLine "42" = .error .MissingDomain :=
  c8_no_comma_missing_domain "42" 42 (by decide) (by decide)

/-- C9: list_date builds {base}/lists/date/{YYYYMMDD} with the year
zero-padded to 4 digits and month and day to 2 digits each; when the
subdomains option is present the query ?subdomains={bool} is appended,
and when absent no query string is appended (the URL contains no
question mark at all and is exactly the 8-digit date after the fixed
path). -/
theorem c9_list_date_url :
    listDateUrl 2025 4 7 (some false)
        = "https://tranco-list.eu/api/lists/date/20250407?subdomains=false" ∧
    listDateUrl 2025 4 7 none = "https://tranco-list.eu/api/lists/date/20250407" ∧
    (∀ y m d : Nat, ∀ b : Bool,
        listDateUrl y m d (some b)
          = listDateUrl y m d none ++ "?subdomains=" ++ boolRepr b) ∧
    (∀ y m d : Nat, ¬ '?' ∈ (listDateUrl y m d none).data) ∧
    (∀ y m d : Nat, y < 10000 → m < 100 → d < 100 →
        (listDateUrl y m d none).data.length
          = "https://tranco-list.eu/api/lists/date/".data.length + 8) := by
  refine ⟨by decide, by decide, ?_, ?_, ?_⟩
  · intro y m d b
    apply String.ext
    simp [listDateUrl, String.data_append]
  · intro y m d hq
    rw [listDateUrl] at hq
    simp only [String.data_append, List.mem_append] at hq
    rcases hq with ((((h | h) | h) | h) | h) | h
    · exact absurd h (by decide)
    · exact absurd h (by decide)
    · exact absurd (rustPad_digits 4 y '?' h) (by decide)
    · exact absurd (rustPad_digits 2 m '?' h) (by decide)
    · exact absurd (rustPad_digits 2 d '?' h) (by decide)
    · exact absurd h (by decide)
  · intro y m d hy hm hd
    have hy4 : y < 10 ^ 4 := by omega
    have hm2 : m < 10 ^ 2 := by omega
    have hd2 : d < 10 ^ 2 := by omega
    rw [listDateUrl]
    simp only [String.data_append, List.length_append]
    rw [rustPad_length 4 y (natRepr_length_le y 4 hy4 (by omega)),
      rustPad_length 2 m (natRepr_length_le m 2 hm2 (by omega)),
      rustPad_length 2 d (natRepr_length_le d 2 hd2 (by omega))]
    decide

/-- C10: visit_u64 never fails and truncates modulo 2^32, so the JSON
integer 2^32 + 5 decodes to Length 5, while the same value written as the
numeric string "4294967301" overflows the u32 string parse and is a
decode error. -/
theorem c10_visit_u64_truncates :
    (∀ v : Nat, v < 2 ^ 64 → decodeListPrefix (.num v) = .ok (.Length (v % 2 ^ 32))) ∧
    decodeListPrefix (.num (2 ^ 32 + 5)) = .ok (.Length 5) ∧
    (∃ e, decodeListPrefix (.str (natRepr (2 ^ 32 + 5))) = .error e) :=
  ⟨fun _ _ => rfl, by decide,
    ⟨"invalid digit or out of range: 4294967301", by decide⟩⟩

end Tranco
